import Mathlib

/-!
Verification development for the k8-namespace-reaper decision engine
(src/main.go). The Go functions getNamespaces, getActiveNamespaces, reap,
sliceContains, validateArgs and run are embedded as pure Lean functions.
External collaborators (the Kubernetes namespace listing and delete calls,
the compiled regular-expression matcher, the Prometheus query transport and
the system clock) are passed in as function parameters; the delete calls a
run performs are returned as an explicit trace so that theorems can speak
about which deletions were attempted.

Times are modelled as integers (nanoseconds since the Unix epoch, matching
Go time.Time/time.Duration arithmetic); the clock is a function from a call
index to a time, because the Go source reads the timeNow variable anew for
every age comparison and every last-used comparison.
-/

namespace Reaper

/-- A Kubernetes namespace as read by the reaper: its name, its creation
timestamp (nanoseconds since the Unix epoch) and its annotations. Labels are
not modelled: label filtering happens server-side inside the listing call,
which is an external collaborator here. -/
structure K8sNamespace where
  name : String
  creationTimestamp : Int
  annotations : List (String × String)

/-- The configuration flags consumed by the decision engine, together with
the compiled regular-expression matcher for namespace-regexp
(regexp.MustCompile(namespaceRegexp).MatchString). Durations are integer
nanoseconds, as in Go. -/
structure Config where
  namespaceLabels : String
  namespaceRegexp : String
  regexpMatch : String → Bool
  namespaceLastUsedAnnotation : String
  reapAfter : Int
  lastUsedThreshold : Int

/-- Go time.Unix(sec, 0) as a nanosecond instant. -/
def timeUnix (sec : Int) : Int :=
  sec * 1000000000

/-- Largest value of Go int64. -/
def int64Max : Int := 9223372036854775807

/-- Smallest value of Go int64. -/
def int64Min : Int := -9223372036854775808

/-- Value of a decimal digit character, none for a non-digit. -/
def digitVal (c : Char) : Option Nat :=
  if c.isDigit then some (c.toNat - 48) else none

/-- Accumulate decimal digits left to right; none on the first non-digit. -/
def digitsToNatAux : List Char → Nat → Option Nat
  | [], acc => some acc
  | c :: rest, acc =>
    match digitVal c with
    | some d => digitsToNatAux rest (acc * 10 + d)
    | none => none

/-- Read a non-empty all-digit character list as a natural number. -/
def digitsToNat : List Char → Option Nat
  | [] => none
  | cs => digitsToNatAux cs 0

/-- Model of Go strconv.ParseInt(val, 10, 64): an optional single sign
followed by one or more decimal digits, with the value required to fit in
int64; every other input is a parse error (none). -/
def parseInt64 (s : String) : Option Int :=
  match s.toList with
  | [] => none
  | '+' :: rest =>
    match digitsToNat rest with
    | some n => if (n : Int) ≤ int64Max then some (n : Int) else none
    | none => none
  | '-' :: rest =>
    match digitsToNat rest with
    | some n => if int64Min ≤ -(n : Int) then some (-(n : Int)) else none
    | none => none
  | cs =>
    match digitsToNat cs with
    | some n => if (n : Int) ≤ int64Max then some (n : Int) else none
    | none => none

/-- Helper for splitComma: carries the characters of the current field in
reverse. -/
def splitCommaAux : List Char → List Char → List String
  | [], acc => [String.mk acc.reverse]
  | c :: rest, acc =>
    if c = ',' then String.mk acc.reverse :: splitCommaAux rest []
    else splitCommaAux rest (c :: acc)

/-- Model of Go strings.Split(s, ","): splits at every comma; the empty
string yields a single empty field, matching the Go behaviour that Split
never returns an empty slice. -/
def splitComma (s : String) : List String :=
  splitCommaAux s.toList []

/-- The per-namespace filtering loop of getNamespaces (src/main.go lines
240 to 267). The current time is read from clock at an incrementing call
index, mirroring that the Go code invokes the timeNow variable once for the
age comparison and once more for the last-used comparison. Returns the
accepted names in listing order together with the next clock call index. -/
def filterNamespaces (cfg : Config) (clock : Nat → Int) :
    List K8sNamespace → Nat → List String × Nat
  | [], k => ([], k)
  | ns :: rest, k =>
    if cfg.namespaceRegexp ≠ "" ∧ cfg.regexpMatch ns.name = false then
      filterNamespaces cfg clock rest k
    else
      let currentAge := clock k - ns.creationTimestamp
      if currentAge < cfg.reapAfter then
        filterNamespaces cfg clock rest (k + 1)
      else if cfg.namespaceLastUsedAnnotation ≠ "" then
        match ns.annotations.lookup cfg.namespaceLastUsedAnnotation with
        | some val =>
          match parseInt64 val with
          | none => filterNamespaces cfg clock rest (k + 1)
          | some sec =>
            let timeSinceLastUsed := clock (k + 1) - timeUnix sec
            if timeSinceLastUsed < cfg.lastUsedThreshold then
              filterNamespaces cfg clock rest (k + 2)
            else
              let r := filterNamespaces cfg clock rest (k + 2)
              (ns.name :: r.1, r.2)
        | none =>
          let r := filterNamespaces cfg clock rest (k + 1)
          (ns.name :: r.1, r.2)
      else
        let r := filterNamespaces cfg clock rest (k + 1)
        (ns.name :: r.1, r.2)

/-- The ListOptions.LabelSelector value used for one configured label entry
(src/main.go lines 229 to 232): the literal label string, except that the
sentinel value all leaves the selector empty. -/
def selectorFor (label : String) : String :=
  if label = "all" then "" else label

/-- The per-selector loop of getNamespaces (src/main.go lines 228 to 268):
for each label entry, list namespaces with that selector (aborting the whole
call on a listing error) and append the names accepted by the filters. -/
def getNamespacesAux (cfg : Config)
    (listNS : String → Except String (List K8sNamespace)) (clock : Nat → Int) :
    List String → Nat → Except String (List String × Nat)
  | [], k => .ok ([], k)
  | label :: rest, k =>
    match listNS (selectorFor label) with
    | .error e => .error e
    | .ok items =>
      let r := filterNamespaces cfg clock items k
      match getNamespacesAux cfg listNS clock rest r.2 with
      | .error e => .error e
      | .ok r2 => .ok (r.1 ++ r2.1, r2.2)

/-- The label entries getNamespaces iterates over (src/main.go lines 224 to
227): the comma-split of the namespace-labels flag; the length-zero fallback
to the all sentinel is kept even though strings.Split never returns an empty
slice. -/
def nsLabelsOf (cfg : Config) : List String :=
  let nsLabels := splitComma cfg.namespaceLabels
  if nsLabels.length = 0 then ["all"] else nsLabels

/-- Embedding of getNamespaces (src/main.go lines 221 to 270). -/
def getNamespaces (cfg : Config)
    (listNS : String → Except String (List K8sNamespace)) (clock : Nat → Int) :
    Except String (List String) :=
  match getNamespacesAux cfg listNS clock (nsLabelsOf cfg) 0 with
  | .error e => .error e
  | .ok r => .ok r.1

/-- The label set of one element of a Prometheus instant-vector result. -/
abbrev Metric := List (String × String)

/-- The outcome of the Prometheus query as seen by getActiveNamespaces:
either the query itself failed, or it produced an instant vector, or it
produced a value of some other type (scalar, matrix, string). -/
inductive PromResult where
  | queryError (e : String)
  | vector (elems : List Metric)
  | other

/-- The collection loop over a vector result (src/main.go lines 301 to 305):
keep, in order, the namespace label value of every element that has one. -/
def collectVectorNamespaces : List Metric → List String
  | [] => []
  | m :: rest =>
    match m.lookup "namespace" with
    | some val => val :: collectVectorNamespaces rest
    | none => collectVectorNamespaces rest

/-- Embedding of getActiveNamespaces (src/main.go lines 272 to 311) from the
point where the Prometheus query result is in hand. In the Go source the
branch for a non-vector result type executes return nil, err; err is
necessarily nil on that path (a non-nil query error already returned at line
294), so the function reports success with an empty name list, and the
embedding reproduces exactly that behaviour. -/
def getActiveNamespaces (result : PromResult) : Except String (List String) :=
  match result with
  | .queryError e => .error e
  | .vector elems => .ok (collectVectorNamespaces elems)
  | .other => .ok []

/-- Embedding of sliceContains (src/main.go lines 351 to 358). -/
def sliceContains (slice : List String) (str : String) : Bool :=
  match slice with
  | [] => false
  | s :: rest => if str = s then true else sliceContains rest str

/-- Observable outcome of one reap invocation: the number of failed deletes
(the Go return value), the number of successful deletes (the increments of
the reaped-total counter), and the trace of namespace names for which a
delete call was issued, in order. -/
structure ReapResult where
  errCount : Nat
  reaped : Nat
  deleteCalls : List String
deriving DecidableEq, Repr

/-- Embedding of reap (src/main.go lines 313 to 335); deleteNS is the
cluster delete collaborator, true meaning the delete succeeded. -/
def reap : List String → List String → (String → Bool) → ReapResult
  | [], _, _ => ⟨0, 0, []⟩
  | ns :: rest, active, deleteNS =>
    if sliceContains active ns then
      reap rest active deleteNS
    else
      let r := reap rest active deleteNS
      if deleteNS ns then
        ⟨r.errCount, r.reaped + 1, ns :: r.deleteCalls⟩
      else
        ⟨r.errCount + 1, r.reaped, ns :: r.deleteCalls⟩

/-- Embedding of validateArgs (src/main.go lines 190 to 199): the list of
validation error messages; main exits when the list is not nil. -/
def validateArgs (cfg : Config) : List String :=
  let errs : List String := []
  if cfg.namespaceLabels = "" ∧ cfg.namespaceRegexp = "" then
    errs ++ ["Must provide either namespaces labels or namespace regexp"]
  else errs

/-- Observable outcome of one run cycle: whether run returned an error, how
many namespaces were successfully reaped this cycle, and the trace of delete
calls issued this cycle. -/
structure RunOutcome where
  isError : Bool
  reaped : Nat
  deleteCalls : List String
deriving DecidableEq, Repr

/-- Embedding of run (src/main.go lines 201 to 219): candidate selection,
then the liveness probe, then the reap pass; an error from either of the
first two steps aborts the cycle with no delete attempted, and a positive
delete-failure count makes the whole cycle an error. -/
def run (cfg : Config) (listNS : String → Except String (List K8sNamespace))
    (promResult : PromResult) (deleteNS : String → Bool) (clock : Nat → Int) :
    RunOutcome :=
  match getNamespaces cfg listNS clock with
  | .error _ => ⟨true, 0, []⟩
  | .ok namespaces =>
    match getActiveNamespaces promResult with
    | .error _ => ⟨true, 0, []⟩
    | .ok active =>
      let r := reap namespaces active deleteNS
      ⟨decide (0 < r.errCount), r.reaped, r.deleteCalls⟩

/-- Spec-side selection semantics for the section 3 invariant of the design
document: the same filters as filterNamespaces, but every age comparison and
every last-used comparison uses the one now value captured for the cycle
instead of re-reading the clock. Compared against filterNamespaces to settle
whether the code re-samples the current time. -/
def filterNamespacesFixedNow (cfg : Config) (now : Int) :
    List K8sNamespace → List String
  | [] => []
  | ns :: rest =>
    if cfg.namespaceRegexp ≠ "" ∧ cfg.regexpMatch ns.name = false then
      filterNamespacesFixedNow cfg now rest
    else if now - ns.creationTimestamp < cfg.reapAfter then
      filterNamespacesFixedNow cfg now rest
    else if cfg.namespaceLastUsedAnnotation ≠ "" then
      match ns.annotations.lookup cfg.namespaceLastUsedAnnotation with
      | some val =>
        match parseInt64 val with
        | none => filterNamespacesFixedNow cfg now rest
        | some sec =>
          if now - timeUnix sec < cfg.lastUsedThreshold then
            filterNamespacesFixedNow cfg now rest
          else
            ns.name :: filterNamespacesFixedNow cfg now rest
      | none => ns.name :: filterNamespacesFixedNow cfg now rest
    else
      ns.name :: filterNamespacesFixedNow cfg now rest

/-- Spec-side per-selector loop with a single now value for the cycle. -/
def getNamespacesFixedNowAux (cfg : Config)
    (listNS : String → Except String (List K8sNamespace)) (now : Int) :
    List String → Except String (List String)
  | [] => .ok []
  | label :: rest =>
    match listNS (selectorFor label) with
    | .error e => .error e
    | .ok items =>
      match getNamespacesFixedNowAux cfg listNS now rest with
      | .error e => .error e
      | .ok r2 => .ok (filterNamespacesFixedNow cfg now items ++ r2)

/-- Spec-side candidate selection with a single now value for the cycle. -/
def getNamespacesFixedNow (cfg : Config)
    (listNS : String → Except String (List K8sNamespace)) (now : Int) :
    Except String (List String) :=
  getNamespacesFixedNowAux cfg listNS now (nsLabelsOf cfg)

/-- Configuration for the concrete evaluations around the non-vector result
shape: no filters beyond a zero age threshold, so every listed namespace is
a candidate. -/
def cfgC1 : Config :=
  ⟨"", "", fun _ => false, "", 0, 0⟩

/-- Cluster listing with one stale namespace. -/
def listC1 : String → Except String (List K8sNamespace) :=
  fun _ => .ok [⟨"stale", 0, []⟩]

/-- Configuration with two comma-separated label selectors and no other
filters. -/
def cfgC3 : Config :=
  ⟨"l1,l2", "", fun _ => false, "", 0, 0⟩

/-- Cluster listing that returns the same namespace for every selector. -/
def listC3 : String → Except String (List K8sNamespace) :=
  fun _ => .ok [⟨"x", 0, []⟩]

/-- Configuration with an age threshold of one time unit and no other
filters. -/
def cfgC4 : Config :=
  ⟨"", "", fun _ => false, "", 1, 0⟩

/-- Cluster listing with two namespaces created at the same instant. -/
def listC4 : String → Except String (List K8sNamespace) :=
  fun _ => .ok [⟨"a", 0, []⟩, ⟨"b", 0, []⟩]

/-- A clock that advances by one time unit per call. -/
def clkC4 : Nat → Int :=
  fun k => (k : Int)

/-- Configuration with a last-used annotation key for the concrete last-used
check. -/
def cfgW5 : Config :=
  ⟨"", "", fun _ => false, "last-used", 10, 5⟩

/-- Namespace whose last-used annotation parses to the Unix timestamp 0. -/
def nsW5 : K8sNamespace :=
  ⟨"n5", 0, [("last-used", "0")]⟩

/-- Configuration with an age threshold of five time units and no other
filters. -/
def cfgW6 : Config :=
  ⟨"", "", fun _ => false, "", 5, 0⟩

/-- Namespace created at the epoch, aged exactly at the threshold when
queried at time five. -/
def nsW6 : K8sNamespace :=
  ⟨"n6", 0, []⟩

/-- Configuration for the failing-listing evaluation. -/
def cfgW7 : Config :=
  ⟨"", "", fun _ => false, "", 0, 0⟩

/-- Cluster listing that fails every call. -/
def listW7 : String → Except String (List K8sNamespace) :=
  fun _ => .error "boom"

/-- Configuration for the failed-delete evaluation. -/
def cfgW8 : Config :=
  ⟨"", "", fun _ => false, "", 0, 0⟩

/-- Cluster listing with two candidate namespaces. -/
def listW8 : String → Except String (List K8sNamespace) :=
  fun _ => .ok [⟨"a", 0, []⟩, ⟨"b", 0, []⟩]

/-- Configuration with neither label selector nor name pattern. -/
def cfgW9bad : Config :=
  ⟨"", "", fun _ => false, "", 0, 0⟩

/-- Configuration with a label selector only. -/
def cfgW9ok : Config :=
  ⟨"x", "", fun _ => false, "", 0, 0⟩

/-- Membership characterisation of the Go sliceContains loop. -/
theorem sliceContains_eq_true_iff (slice : List String) (str : String) :
    sliceContains slice str = true ↔ str ∈ slice := by
  induction slice with
  | nil => simp [sliceContains]
  | cons s rest ih =>
    by_cases h : str = s
    · simp [sliceContains, h]
    · simp [sliceContains, h, ih]

/-- The delete trace of one reap invocation is exactly the candidates that
are not in the active list, in order, independent of which deletes fail. -/
theorem reap_deleteCalls_eq (candidates active : List String)
    (deleteNS : String → Bool) :
    (reap candidates active deleteNS).deleteCalls =
      candidates.filter (fun c => !sliceContains active c) := by
  induction candidates with
  | nil => rfl
  | cons ns rest ih =>
    simp only [reap, List.filter_cons]
    by_cases h : sliceContains active ns = true
    · simp [h, ih]
    · by_cases hd : deleteNS ns = true
      · simp [h, hd, ih]
      · simp [h, hd, ih]

/-- The error count of one reap invocation is the number of issued deletes
that failed. -/
theorem reap_errCount_eq (candidates active : List String)
    (deleteNS : String → Bool) :
    (reap candidates active deleteNS).errCount =
      ((candidates.filter (fun c => !sliceContains active c)).filter
        (fun c => !deleteNS c)).length := by
  induction candidates with
  | nil => rfl
  | cons ns rest ih =>
    simp only [reap, List.filter_cons]
    by_cases h : sliceContains active ns = true
    · simp [h, ih]
    · by_cases hd : deleteNS ns = true
      · simp [h, hd, ih]
      · simp [h, hd, ih]

/-- With a clock that returns the same value on every call, the filtering
loop agrees with the spec-side fixed-now semantics at every starting call
index. -/
theorem filterNamespaces_const_clock (cfg : Config) (t : Int)
    (items : List K8sNamespace) :
    ∀ k : Nat, (filterNamespaces cfg (fun _ => t) items k).1 =
      filterNamespacesFixedNow cfg t items := by
  induction items with
  | nil => intro k; rfl
  | cons ns rest ih =>
    intro k
    simp only [filterNamespaces, filterNamespacesFixedNow]
    split
    · exact ih k
    · split
      · exact ih (k + 1)
      · split
        · split
          · split
            · exact ih (k + 1)
            · split
              · exact ih (k + 2)
              · simp [ih (k + 2)]
          · simp [ih (k + 1)]
        · simp [ih (k + 1)]

/-- With a constant clock, the per-selector loop agrees with the spec-side
fixed-now semantics at every starting call index. -/
theorem getNamespacesAux_const_clock (cfg : Config)
    (listNS : String → Except String (List K8sNamespace)) (t : Int)
    (labels : List String) :
    ∀ k : Nat,
      (getNamespacesAux cfg listNS (fun _ => t) labels k).map Prod.fst =
        getNamespacesFixedNowAux cfg listNS t labels := by
  induction labels with
  | nil => intro k; rfl
  | cons label rest ih =>
    intro k
    simp only [getNamespacesAux, getNamespacesFixedNowAux]
    cases h : listNS (selectorFor label) with
    | error e => simp [Except.map]
    | ok items =>
      have ih2 := ih (filterNamespaces cfg (fun _ => t) items k).2
      cases h2 : getNamespacesAux cfg listNS (fun _ => t) rest
          (filterNamespaces cfg (fun _ => t) items k).2 with
      | error e =>
        rw [h2] at ih2
        simp only [Except.map] at ih2
        rw [← ih2]
        simp [Except.map, h2]
      | ok r2 =>
        rw [h2] at ih2
        simp only [Except.map] at ih2
        rw [← ih2]
        simp [Except.map, h2, filterNamespaces_const_clock cfg t items k]

/-- If any configured selector is reached whose listing call fails, the
whole per-selector loop ends in an error. -/
theorem getNamespacesAux_error_of_mem (cfg : Config)
    (listNS : String → Except String (List K8sNamespace)) (clock : Nat → Int)
    (labels : List String) (label : String) (e : String)
    (hmem : label ∈ labels) (herr : listNS (selectorFor label) = .error e) :
    ∀ k : Nat, ∃ e2, getNamespacesAux cfg listNS clock labels k = .error e2 := by
  induction labels with
  | nil => cases hmem
  | cons l rest ih =>
    intro k
    cases h : listNS (selectorFor l) with
    | error e2 => exact ⟨e2, by simp [getNamespacesAux, h]⟩
    | ok items =>
      rcases List.mem_cons.mp hmem with heq | hmem2
      · rw [heq] at herr
        rw [herr] at h
        cases h
      · obtain ⟨e2, h2⟩ := ih hmem2 (filterNamespaces cfg clock items k).2
        exact ⟨e2, by simp [getNamespacesAux, h, h2]⟩

/-- A name is collected from a vector result exactly when some element of
the vector carries it as its namespace label value. -/
theorem collectVectorNamespaces_mem (elems : List Metric) (name : String) :
    name ∈ collectVectorNamespaces elems ↔
      ∃ m ∈ elems, m.lookup "namespace" = some name := by
  induction elems with
  | nil => simp [collectVectorNamespaces]
  | cons m rest ih =>
    cases h : m.lookup "namespace" with
    | some val =>
      simp only [collectVectorNamespaces, h, List.mem_cons, ih]
      constructor
      · rintro (rfl | ⟨m2, hm2, hl⟩)
        · exact ⟨m, Or.inl rfl, h⟩
        · exact ⟨m2, Or.inr hm2, hl⟩
      · rintro ⟨m2, hm2 | hm2, hl⟩
        · rcases hm2 with rfl
          rw [h] at hl
          exact Or.inl (Option.some.inj hl).symm
        · exact Or.inr ⟨m2, hm2, hl⟩
    | none => simp [collectVectorNamespaces, h, ih]

/-- The number of collected names equals the number of vector elements that
carry a namespace label. -/
theorem collectVectorNamespaces_length (elems : List Metric) :
    (collectVectorNamespaces elems).length =
      (elems.filter (fun m => (m.lookup "namespace").isSome)).length := by
  induction elems with
  | nil => rfl
  | cons m rest ih =>
    cases h : m.lookup "namespace" with
    | some val => simp [collectVectorNamespaces, h, List.filter_cons, ih]
    | none => simp [collectVectorNamespaces, h, List.filter_cons, ih]

/-- C1: the spec requires a non-vector result shape from the metrics
backend to be a hard error, with the cycle failing and no deletion
attempted. The source (src/main.go line 308) instead executes return nil,
err on that branch with err necessarily nil, so getActiveNamespaces reports
success with an empty active set and the cycle proceeds to delete every
candidate: evaluated at the failing input, run reports no error, one
namespace is reaped and one delete call is issued. -/
theorem c1_nonvector_result_reaps_without_error :
    getActiveNamespaces PromResult.other = Except.ok []
  ∧ run cfgC1 listC1 PromResult.other (fun _ => true) (fun _ => 0) =
      ⟨false, 1, ["stale"]⟩ :=
  ⟨rfl, rfl⟩

/-- C2 counterexample: for the candidate list with the name a twice and an
empty active set, reap issues two delete calls for a, not exactly one, so
the claim fails for candidate lists containing duplicates. -/
theorem c2_counterexample :
    "a" ∈ ["a", "a"]
  ∧ "a" ∉ ([] : List String)
  ∧ (reap ["a", "a"] [] (fun _ => true)).deleteCalls.count "a" = 2 := by
  decide

/-- C2 (amended): reap issues zero delete calls for any name in the active
list and one delete call per occurrence of every other name in the
candidate list; in particular, for a duplicate-free candidate list it
issues exactly one delete call for each name in candidates minus active. -/
theorem c2_reap_delete_call_count (candidates active : List String)
    (deleteNS : String → Bool) (name : String) :
    (reap candidates active deleteNS).deleteCalls.count name =
      if name ∈ active then 0 else candidates.count name := by
  rw [reap_deleteCalls_eq]
  by_cases h : name ∈ active
  · rw [if_pos h]
    refine List.count_eq_zero.mpr ?_
    intro hmem
    have hp := (List.mem_filter.mp hmem).2
    have hsc : sliceContains active name = true :=
      (sliceContains_eq_true_iff active name).mpr h
    rw [hsc] at hp
    simp at hp
  · rw [if_neg h]
    refine List.count_filter ?_
    have hsc : ¬ sliceContains active name = true := by
      rw [sliceContains_eq_true_iff]
      exact h
    simp [hsc]

/-- C3 counterexample: with the two comma-separated label selectors l1 and
l2 and a cluster whose listing returns the namespace x for each of them,
the candidate list contains x twice, so a namespace listed under more than
one label selector does not contribute exactly one element. -/
theorem c3_counterexample :
    getNamespaces cfgC3 listC3 (fun _ => 0) = Except.ok ["x", "x"]
  ∧ (["x", "x"].count "x" = 2) :=
  ⟨rfl, by decide⟩

/-- C3 (amended): the candidate collection is a list, not a set — a
namespace returned by the listings of two configured label selectors and
passing the filters at both samplings contributes one element per selector
(here: two elements), and duplicates are not collapsed. -/
theorem c3_two_selectors_two_entries (ns : K8sNamespace)
    (listNS : String → Except String (List K8sNamespace)) (clock : Nat → Int)
    (rm : String → Bool) (ra lut : Int)
    (h1 : listNS "l1" = .ok [ns]) (h2 : listNS "l2" = .ok [ns])
    (hage0 : ra ≤ clock 0 - ns.creationTimestamp)
    (hage1 : ra ≤ clock 1 - ns.creationTimestamp) :
    getNamespaces ⟨"l1,l2", "", rm, "", ra, lut⟩ listNS clock =
      Except.ok [ns.name, ns.name] := by
  have hf : ∀ k : Nat, ra ≤ clock k - ns.creationTimestamp →
      filterNamespaces ⟨"l1,l2", "", rm, "", ra, lut⟩ clock [ns] k =
        ([ns.name], k + 1) := by
    intro k hk
    have hc2 : ¬ (clock k - ns.creationTimestamp < ra) := by omega
    simp [filterNamespaces, hc2]
  have hl : nsLabelsOf ⟨"l1,l2", "", rm, "", ra, lut⟩ = ["l1", "l2"] := rfl
  have hs1 : selectorFor "l1" = "l1" := rfl
  have hs2 : selectorFor "l2" = "l2" := rfl
  unfold getNamespaces
  rw [hl]
  simp only [getNamespacesAux, hs1, hs2, h1, h2, hf 0 hage0, hf 1 hage1]
  rfl

/-- Witness for the amended C3 theorem at a concrete namespace, listing and
clock. -/
theorem c3_two_selectors_two_entries_witness :
    getNamespaces ⟨"l1,l2", "", (fun _ => false), "", 0, 0⟩ listC3
      (fun _ => 0) = Except.ok ["x", "x"] :=
  c3_two_selectors_two_entries ⟨"x", 0, []⟩ listC3 (fun _ => 0)
    (fun _ => false) 0 0 rfl rfl (by decide) (by decide)

/-- C4 counterexample: two namespaces created at the same instant, an age
threshold of one unit, and a clock that advances one unit per call. The
code skips the first namespace and accepts the second, while the spec-side
fixed-now semantics (evaluated at the cycle start time) accepts neither, so
age comparisons do not use one and the same now value and the outcome of a
namespace depends on how long earlier processing takes. -/
theorem c4_counterexample :
    getNamespaces cfgC4 listC4 clkC4 = Except.ok ["b"]
  ∧ getNamespacesFixedNow cfgC4 listC4 (clkC4 0) = Except.ok []
  ∧ getNamespaces cfgC4 listC4 clkC4 ≠ getNamespacesFixedNow cfgC4 listC4 (clkC4 0) := by
  have h1 : getNamespaces cfgC4 listC4 clkC4 = Except.ok ["b"] := rfl
  have h2 : getNamespacesFixedNow cfgC4 listC4 (clkC4 0) = Except.ok [] := rfl
  refine ⟨h1, h2, ?_⟩
  rw [h1, h2]
  simp

/-- C4 (amended): the code re-reads the clock for every age comparison and
every last-used comparison, so a cycle uses a single consistent now value
only when the clock does not advance while the cycle runs; in that case the
selection agrees with the spec-side fixed-now semantics. -/
theorem c4_constant_clock_matches_fixed_now (cfg : Config)
    (listNS : String → Except String (List K8sNamespace)) (t : Int) :
    getNamespaces cfg listNS (fun _ => t) = getNamespacesFixedNow cfg listNS t := by
  have h := getNamespacesAux_const_clock cfg listNS t (nsLabelsOf cfg) 0
  unfold getNamespaces getNamespacesFixedNow
  cases h2 : getNamespacesAux cfg listNS (fun _ => t) (nsLabelsOf cfg) 0 with
  | error e =>
    rw [h2] at h
    simp only [Except.map] at h
    rw [← h]
  | ok r =>
    rw [h2] at h
    simp only [Except.map] at h
    rw [← h]

/-- C5: with a last-used annotation key configured, for a namespace that
passes the pattern and age filters: an annotation value parsing to a
timestamp whose age-since-use is below the threshold excludes the
namespace and one at or above it keeps it; an absent annotation does not
exempt the namespace; an unparseable annotation value excludes it. -/
theorem c5_last_used_annotation_filter (cfg : Config) (ns : K8sNamespace)
    (t : Int)
    (hkey : cfg.namespaceLastUsedAnnotation ≠ "")
    (hpat : cfg.namespaceRegexp = "" ∨ cfg.regexpMatch ns.name = true)
    (hage : cfg.reapAfter ≤ t - ns.creationTimestamp) :
    (∀ val sec,
        ns.annotations.lookup cfg.namespaceLastUsedAnnotation = some val →
        parseInt64 val = some sec →
        ((filterNamespaces cfg (fun _ => t) [ns] 0).1 = [ns.name] ↔
          cfg.lastUsedThreshold ≤ t - timeUnix sec))
  ∧ (ns.annotations.lookup cfg.namespaceLastUsedAnnotation = none →
      (filterNamespaces cfg (fun _ => t) [ns] 0).1 = [ns.name])
  ∧ (∀ val,
        ns.annotations.lookup cfg.namespaceLastUsedAnnotation = some val →
        parseInt64 val = none →
        (filterNamespaces cfg (fun _ => t) [ns] 0).1 = []) := by
  have hc1 : ¬ (cfg.namespaceRegexp ≠ "" ∧ cfg.regexpMatch ns.name = false) := by
    rintro ⟨ha, hb⟩
    rcases hpat with hp | hp
    · exact ha hp
    · rw [hp] at hb
      cases hb
  have hc2 : ¬ (t - ns.creationTimestamp < cfg.reapAfter) := by omega
  refine ⟨?_, ?_, ?_⟩
  · intro val sec hl hp
    by_cases hlt : t - timeUnix sec < cfg.lastUsedThreshold
    · simp [filterNamespaces, hc1, hc2, hkey, hl, hp, hlt]
    · simp [filterNamespaces, hc1, hc2, hkey, hl, hp, hlt]
      omega
  · intro hl
    simp [filterNamespaces, hc1, hc2, hkey, hl]
  · intro val hl hp
    simp [filterNamespaces, hc1, hc2, hkey, hl, hp]

/-- Witness for the C5 theorem: a namespace whose annotation parses to the
epoch, queried twenty units later with a threshold of five, is kept. -/
theorem c5_last_used_annotation_filter_witness :
    (filterNamespaces cfgW5 (fun _ => 20) [nsW5] 0).1 = ["n5"] := by
  have h := c5_last_used_annotation_filter cfgW5 nsW5 20 (by decide)
    (Or.inl rfl) (by decide)
  exact (h.1 "0" 0 rfl rfl).mpr (by decide)

/-- C6: for a namespace passing the pattern and last-used filters, the
namespace is a candidate exactly when its age reaches the configured
threshold, so age equal to the threshold is included and only strictly
younger namespaces are skipped. -/
theorem c6_age_threshold_boundary (cfg : Config) (ns : K8sNamespace) (t : Int)
    (hpat : cfg.namespaceRegexp = "" ∨ cfg.regexpMatch ns.name = true)
    (hann : cfg.namespaceLastUsedAnnotation = ""
        ∨ ns.annotations.lookup cfg.namespaceLastUsedAnnotation = none
        ∨ ∃ val sec,
            ns.annotations.lookup cfg.namespaceLastUsedAnnotation = some val
            ∧ parseInt64 val = some sec
            ∧ cfg.lastUsedThreshold ≤ t - timeUnix sec) :
    ((filterNamespaces cfg (fun _ => t) [ns] 0).1 = [ns.name] ↔
      cfg.reapAfter ≤ t - ns.creationTimestamp) := by
  have hc1 : ¬ (cfg.namespaceRegexp ≠ "" ∧ cfg.regexpMatch ns.name = false) := by
    rintro ⟨ha, hb⟩
    rcases hpat with hp | hp
    · exact ha hp
    · rw [hp] at hb
      cases hb
  by_cases hage : t - ns.creationTimestamp < cfg.reapAfter
  · simp [filterNamespaces, hc1, hage]
  · rcases hann with hk | hnone | ⟨val, sec, hl, hp, hlu⟩
    · simp [filterNamespaces, hc1, hage, hk]
      omega
    · by_cases hk : cfg.namespaceLastUsedAnnotation = ""
      · simp [filterNamespaces, hc1, hage, hk]
        omega
      · simp [filterNamespaces, hc1, hage, hk, hnone]
        omega
    · by_cases hk : cfg.namespaceLastUsedAnnotation = ""
      · simp [filterNamespaces, hc1, hage, hk]
        omega
      · have hc3 : ¬ (t - timeUnix sec < cfg.lastUsedThreshold) := by omega
        simp [filterNamespaces, hc1, hage, hk, hl, hp, hc3]
        omega

/-- Witness for the C6 theorem at the boundary: age exactly equal to the
threshold is included. -/
theorem c6_age_threshold_boundary_witness :
    (filterNamespaces cfgW6 (fun _ => 5) [nsW6] 0).1 = ["n6"] :=
  (c6_age_threshold_boundary cfgW6 nsW6 5 (Or.inl rfl) (Or.inl rfl)).mpr
    (by decide)

/-- C7: if the listing call for any configured label selector fails,
candidate selection aborts the whole call with an error rather than
returning a partial candidate set, and the run cycle errors with no delete
call issued. -/
theorem c7_listing_failure_aborts (cfg : Config)
    (listNS : String → Except String (List K8sNamespace)) (clock : Nat → Int)
    (promResult : PromResult) (deleteNS : String → Bool) (label e : String)
    (hmem : label ∈ nsLabelsOf cfg)
    (herr : listNS (selectorFor label) = .error e) :
    (∃ e2, getNamespaces cfg listNS clock = .error e2)
  ∧ run cfg listNS promResult deleteNS clock = ⟨true, 0, []⟩ := by
  obtain ⟨e2, h2⟩ := getNamespacesAux_error_of_mem cfg listNS clock
    (nsLabelsOf cfg) label e hmem herr 0
  have hg : getNamespaces cfg listNS clock = .error e2 := by
    unfold getNamespaces
    rw [h2]
  refine ⟨⟨e2, hg⟩, ?_⟩
  unfold run
  rw [hg]

/-- Witness for the C7 theorem: a listing that always fails makes the cycle
error with no delete call. -/
theorem c7_listing_failure_aborts_witness :
    run cfgW7 listW7 (PromResult.vector []) (fun _ => true) (fun _ => 0) =
      ⟨true, 0, []⟩ :=
  (c7_listing_failure_aborts cfgW7 listW7 (fun _ => 0) (PromResult.vector [])
    (fun _ => true) "" "boom" (by decide) rfl).2

/-- C8: the delete trace of a reap invocation is all candidates not in the
active list regardless of which deletes fail (a failed delete does not
abort the batch), the returned error count is the number of failed deletes
of this invocation, and a positive count makes the whole run cycle report
an error. -/
theorem c8_partial_failure_tolerance (candidates active : List String)
    (deleteNS : String → Bool) :
    (reap candidates active deleteNS).deleteCalls =
        candidates.filter (fun c => !sliceContains active c)
  ∧ (reap candidates active deleteNS).errCount =
        ((candidates.filter (fun c => !sliceContains active c)).filter
          (fun c => !deleteNS c)).length
  ∧ ∀ (cfg : Config) (listNS : String → Except String (List K8sNamespace))
      (promResult : PromResult) (clock : Nat → Int),
      getNamespaces cfg listNS clock = .ok candidates →
      getActiveNamespaces promResult = .ok active →
      0 < (reap candidates active deleteNS).errCount →
      (run cfg listNS promResult deleteNS clock).isError = true := by
  refine ⟨reap_deleteCalls_eq candidates active deleteNS,
    reap_errCount_eq candidates active deleteNS, ?_⟩
  intro cfg listNS promResult clock hg ha hpos
  unfold run
  rw [hg, ha]
  simp [hpos]

/-- Witness for the C8 theorem: with candidates a and b, b active and every
delete failing, the delete call for a is still issued, one failure is
returned and the concrete cycle reports an error. -/
theorem c8_partial_failure_tolerance_witness :
    (reap ["a", "b"] ["b"] (fun _ => false)).deleteCalls = ["a"]
  ∧ (reap ["a", "b"] ["b"] (fun _ => false)).errCount = 1
  ∧ (run cfgW8 listW8 (PromResult.vector [[("namespace", "b")]])
      (fun _ => false) (fun _ => 0)).isError = true := by
  have h := c8_partial_failure_tolerance ["a", "b"] ["b"] (fun _ => false)
  exact ⟨by decide, by decide,
    h.2.2 cfgW8 listW8 (PromResult.vector [[("namespace", "b")]])
      (fun _ => 0) rfl rfl (by decide)⟩

/-- C9: startup validation returns at least one error exactly when neither
a label selector nor a name pattern is configured, and returns no error
when at least one of the two is configured. -/
theorem c9_validate_args (cfg : Config) :
    (cfg.namespaceLabels = "" ∧ cfg.namespaceRegexp = "" →
        1 ≤ (validateArgs cfg).length)
  ∧ ((cfg.namespaceLabels ≠ "" ∨ cfg.namespaceRegexp ≠ "") →
        validateArgs cfg = []) := by
  constructor
  · intro h
    simp [validateArgs, h]
  · intro h
    have hn : ¬ (cfg.namespaceLabels = "" ∧ cfg.namespaceRegexp = "") := by
      tauto
    simp [validateArgs, hn]

/-- Witness for the C9 theorem: the empty configuration yields a validation
error and a configuration with a label selector yields none. -/
theorem c9_validate_args_witness :
    1 ≤ (validateArgs cfgW9bad).length ∧ validateArgs cfgW9ok = [] :=
  ⟨(c9_validate_args cfgW9bad).1 ⟨rfl, rfl⟩,
   (c9_validate_args cfgW9ok).2 (Or.inl (by decide))⟩

/-- C10: for a vector result, getActiveNamespaces reports no error, a name
is in the returned active set exactly when some vector element carries it
as its namespace label value, and the number of returned names equals the
number of elements carrying that label — elements without it are silently
dropped while the others are still collected. -/
theorem c10_vector_elements_without_label_dropped (elems : List Metric) :
    ∃ ns, getActiveNamespaces (PromResult.vector elems) = Except.ok ns
      ∧ (∀ name, name ∈ ns ↔ ∃ m ∈ elems, m.lookup "namespace" = some name)
      ∧ ns.length =
          (elems.filter (fun m => (m.lookup "namespace").isSome)).length :=
  ⟨collectVectorNamespaces elems, rfl,
    fun name => collectVectorNamespaces_mem elems name,
    collectVectorNamespaces_length elems⟩

end Reaper
